import Mathlib

/-!
Verification development for the `argparser` repository.

The repository contains three implementations of the same command-line
parsing algorithm:

* `parser.go` — the primary Go implementation (`New`, `Keyword`, `Argument`,
  `Find`, `Extract`, `Validate`, `Parse`), embedded below in namespace `AP`;
* an unnamed Go variant (`NewParser`, `Switch`, `find`, `extract`,
  `process_switches`, ...), whose dependency check `process_switches` is
  embedded in namespace `Part0`;
* `argparser.erl` — an Erlang prototype (`get_index`, `extract_args`,
  `check_nargs`, `extract_positional`, `test`), embedded in namespace `Erl`.

Go panics and Erlang `error/1` exits are modelled as `Except` errors.
Go's `map` iteration order is unspecified; maps are modelled as association
lists in key-insertion order (one realizable iteration order), and this is
noted wherever iteration order is observable.  Machine integers are modelled
as `Int` (the values involved are tiny, so overflow is irrelevant).
-/

/-- Decidable equality for `Except`, used to evaluate the embedded
functions on concrete inputs. -/
instance {ε α : Type} [DecidableEq ε] [DecidableEq α] : DecidableEq (Except ε α) := fun a b =>
  match a, b with
  | .ok x, .ok y => if h : x = y then .isTrue (by rw [h]) else .isFalse (by simp [h])
  | .error x, .error y => if h : x = y then .isTrue (by rw [h]) else .isFalse (by simp [h])
  | .ok _, .error _ => .isFalse (by simp)
  | .error _, .ok _ => .isFalse (by simp)

namespace AP

/-- Errors of `parser.go` (the `Err*` variables, lines 53–64), plus two
constructors for runtime panics the code can hit: `panicIndex` for an
index-out-of-range / slice-bounds panic, and `helpExit` for the
`os.Exit(0)` taken when `-h`/`--help` is seen with `ExitOnHelp` set. -/
inductive Err where
  | missingName
  | noArgs
  | excessArgs
  | lessArgs
  | lessPosArgs
  | duplicate
  | invalidNargs
  | assertionFailure
  | invalidChoice
  | missingDeps
  | unallowedDeps
  | nameConflict
  | panicIndex
  | helpExit
deriving DecidableEq, Repr

/-- The `Option` struct of `parser.go` (lines 14–29).  `Assert` in Go returns
an `error` (nil = pass); it is modelled as a boolean predicate (true = pass).
Fields not read by any parsing function (`Metavar`, `Help` text layout) are
kept only where the code stores them. -/
structure Opt where
  name : String := ""
  shortName : String := ""
  longName : String := ""
  nargs : String := ""
  n : Int := 0
  assert : Option (String → Bool) := none
  metavar : String := ""
  help : String := ""
  map : Option (String → String) := none
  requires_ : List String := []
  excludes : List String := []
  required : Bool := false
  enum : Option (List String) := none
  allowDuplicates : Bool := false

/-- The `keyword` occurrence record (lines 37–42): a copy of the switch with
the matched stream position, as produced by `Find`. -/
structure Kw where
  name : String
  pos : Nat
  opts : Opt

def dummyKw : Kw := { name := "", pos := 0, opts := {} }

/-- `parsedMap`: Go `map[string][]string`, modelled as an association list in
key-insertion order. -/
abbrev PMap := List (String × List String)

/-- Association-list lookup (Go map read `m[k]`). -/
def lookupA (m : List (String × α)) (k : String) : Option α :=
  match m with
  | [] => none
  | (a, b) :: t => if a = k then some b else lookupA t k

/-- Go map read with the zero value `[]string{}` for missing keys. -/
def lookupD (m : PMap) (k : String) : List String :=
  (lookupA m k).getD []

/-- Go map write `m[k] = v`: replace if present, else append (insertion
order). -/
def updateAssoc (m : List (String × α)) (k : String) (v : α) : List (String × α) :=
  match m with
  | [] => [(k, v)]
  | (a, b) :: t => if a = k then (k, v) :: t else (a, b) :: updateAssoc t k v

/-- Go slice expression `l[lo:hi]` (for the in-range uses in the source). -/
def goSlice (l : List String) (lo hi : Nat) : List String :=
  (l.drop lo).take (hi - lo)

/-- The parser state: `Parser` fields plus the package-level registries
(`keywordsMap`, `argumentsMap`, `argumentsSlice`, the `tailArgv` seeded by
`New` from tokens after `--`).  A fresh state per parse models one program
run. -/
structure PState where
  argv : List String := []
  tailArgv0 : List String := []
  exitOnHelp : Bool := false
  keywordsMap : List (String × Opt) := []
  argumentsMap : List (String × Opt) := []
  argumentsSlice : List (String × Opt) := []

/-- Name resolution in `Keyword` (lines 149–159): the long name wins, the
short name fills in `Name` only when still empty. -/
def resolveOpt (short long : String) (o : Opt) : Opt :=
  let o1 := if long ≠ "" then { o with longName := long, name := long } else o
  if short ≠ "" then
    { o1 with shortName := short, name := if o1.name = "" then short else o1.name }
  else o1

/-- The resolved registration name of a keyword declaration. -/
def resolveName (short long : String) (o : Opt) : String :=
  (resolveOpt short long o).name

/-- The regexp `^[+*?]+$` (line 81) on a non-empty string. -/
def nargsValid (s : String) : Bool :=
  s.data.all (fun c => c = '+' || c = '*' || c = '?')

/-- `Parser.Keyword` (lines 144–185): resolve names, reject name conflicts,
validate the `Nargs` string (setting `N` to `-1` when a quantifier is used),
and insert into `keywordsMap`. -/
def keywordReg (st : PState) (short long : String) (o : Opt) : Except Err PState :=
  if short = "" ∧ long = "" then .error .missingName
  else
    let o1 := resolveOpt short long o
    if (lookupA st.argumentsMap o1.name).isSome then .error .nameConflict
    else if (lookupA st.keywordsMap o1.name).isSome then .error .nameConflict
    else if o1.nargs ≠ "" ∧ ¬ nargsValid o1.nargs then .error .invalidNargs
    else
      let o2 := if o1.nargs ≠ "" then { o1 with n := -1 } else o1
      .ok { st with keywordsMap := updateAssoc st.keywordsMap o2.name o2 }

/-- `Parser.Argument` (lines 118–142). -/
def argumentReg (st : PState) (name : String) (o : Opt) : Except Err PState :=
  let o1 := { o with name := name }
  if name = "" then .error .missingName
  else if (lookupA st.argumentsMap name).isSome then .error .nameConflict
  else if (lookupA st.keywordsMap name).isSome then .error .nameConflict
  else .ok { st with
    argumentsMap := updateAssoc st.argumentsMap name o1,
    argumentsSlice := st.argumentsSlice ++ [(name, o1)] }

/-- `New` (lines 95–116): split the stream at the first `--` terminator
(tokens after it become the initial `tailArgv`), then register the implicit
`h`/`help` switch.  Registration of `help` cannot fail on the fresh empty
registry, so the error branch below is unreachable. -/
def pNew (argv0 : List String) : PState :=
  let p : List String × List String :=
    match argv0.findIdx? (· == "--") with
    | some eof => (argv0.take eof, argv0.drop (eof + 1))
    | none => (argv0, [])
  let st0 : PState := { argv := p.1, tailArgv0 := p.2 }
  match keywordReg st0 "h" "help" { help := "show this help" } with
  | .ok st => st
  | .error _ => st0

/-- The implicit help switch as registered by `New`. -/
def helpOpt : Opt :=
  { name := "help", shortName := "h", longName := "help", help := "show this help" }

/-- The short-form test of `Find`'s scan (line 202, via the `matches`
closure of lines 191–193): `"-" + shortName` equals the token, with a
non-empty short name. -/
def shortHitB (o : Opt) (v : String) : Bool :=
  o.shortName ≠ "" && ("-" ++ o.shortName == v)

/-- The long-form test (line 210): tried only when the short form did not
match, `"--" + longName` equals the token. -/
def longHitB (o : Opt) (v : String) : Bool :=
  !(shortHitB o v) && ("--" ++ o.longName == v)

/-- `matched != -1` after both tests (lines 200–216): the token is an
occurrence of the switch. -/
def kwTokMatch (o : Opt) (v : String) : Bool :=
  shortHitB o v || longHitB o v

/-- One scan step of `Find`'s inner loop (lines 200–232) for a single switch:
short form first, long form only if the short form did not match, the
`Required` check inside the loop, occurrence collection and the duplicate
check via `checkDups`/`seen`. -/
def findGo (eoh : Bool) (o : Opt) : List String → Nat → Bool → Except Err (List Kw)
  | [], _, _ => .ok []
  | v :: rest, i, seen =>
    if shortHitB o v && (v == "-h") && eoh then .error .helpExit
    else if longHitB o v && (v == "--help") && eoh then .error .helpExit
    else if !(kwTokMatch o v) && o.required then .error .noArgs
    else if kwTokMatch o v then
      if seen && !o.allowDuplicates then .error .duplicate
      else
        match findGo eoh o rest (i + 1) true with
        | .error e => .error e
        | .ok ks => .ok (⟨o.name, i, o⟩ :: ks)
    else findGo eoh o rest (i + 1) seen

/-- `Find` (lines 187–245) without the final sort: run the scan for every
registered switch.  Go iterates `keywordsMap` in unspecified map order; the
registration (insertion) order is used here as one realizable order. -/
def findAll (eoh : Bool) (argv : List String) : List (String × Opt) → Except Err (List Kw)
  | [] => .ok []
  | (_, o) :: rest =>
    match findGo eoh o argv 0 false with
    | .error e => .error e
    | .ok ks =>
      match findAll eoh argv rest with
      | .error e => .error e
      | .ok more => .ok (ks ++ more)

/-- Ascending insertion by position, modelling `slices.SortFunc` with the
comparator of lines 239–244 (occurrence positions are pairwise distinct in
every run considered, where the two sorts agree). -/
def insertKw (k : Kw) : List Kw → List Kw
  | [] => [k]
  | x :: xs => if k.pos < x.pos then k :: x :: xs else x :: insertKw k xs

def sortKws : List Kw → List Kw
  | [] => []
  | x :: xs => insertKw x (sortKws xs)

/-- `parsedMap[current.name] = append(parsedMap[current.name], span...)` with
the create-if-absent step (lines 261–266). -/
def updAppend (pm : PMap) (k : String) (xs : List String) : PMap :=
  updateAssoc pm k (lookupD pm k ++ xs)

/-- The adjacent-occurrence loop of `Extract` (lines 257–267): tokens strictly
between an occurrence and the next belong to the former. -/
def spanLoop (argv : List String) : List Kw → PMap → PMap
  | c :: n :: rest, pm =>
    spanLoop argv (n :: rest) (updAppend pm c.name (goSlice argv (c.pos + 1) n.pos))
  | _, pm => pm

/-- The positional-binding loop (lines 307–311): the i-th declared argument
receives the i-th pooled token, under both its name and its index. -/
def argAssign (allArgv : List String) : List (String × Opt) → Nat → PMap → PMap
  | [], _, pm => pm
  | (nm, _) :: rest, i, pm =>
    let res := [allArgv.getD i ""]
    argAssign allArgv rest (i + 1) (updateAssoc (updateAssoc pm nm res) (toString i) res)

/-- The surplus-token loop (lines 313–316), iterating `i` from `args.length`
up to `allArgv.length` (the fuel argument counts the remaining iterations).
Note the source reads `argv[i]`, not `allArgv[i]`; when `i` exceeds
`len(argv)` (possible with a `--` tail) Go panics, modelled as
`panicIndex`. -/
def numAssignGo (argv : List String) : Nat → Nat → PMap → Except Err PMap
  | 0, _, pm => .ok pm
  | fuel + 1, i, pm =>
    match argv[i]? with
    | some v => numAssignGo argv fuel (i + 1) (updateAssoc pm (toString i) [v])
    | none => .error .panicIndex

def numAssign (argv : List String) (i stop : Nat) (pm : PMap) : Except Err PMap :=
  numAssignGo argv (stop - i) i pm

/-- The state left by `Extract`: the bound-value map and the head/tail/pooled
token slices. -/
structure ExSt where
  parsedMap : PMap
  headArgv : List String
  tailArgv : List String
  allArgv : List String
deriving DecidableEq, Repr

/-- The last-occurrence arity reconciliation of `Extract` (lines 269–297),
applied to the map after `parsedMap[last.name] = argv[last.pos+1:]`: the
exact-count truncation with the `argv[last.pos+lastN:]` tail slice, the
`lastN == 0` branch shadowed by the `lastArgsL > lastN` branch, and the
`+`/`?` quantifier checks.  Returns the updated map and the tail pool.
(`N` is `-1` or non-negative in every state reachable through
registration.) -/
def lastStep (argv : List String) (last : Kw) (pm2 : PMap) (tail0 : List String) :
    Except Err (PMap × List String) :=
  let lastArgsL := (argv.drop (last.pos + 1)).length
  let lastN := last.opts.n
  if lastN ≠ -1 then
    if (lastArgsL : Int) > lastN then
      .ok (updateAssoc pm2 last.name (goSlice argv (last.pos + 1) (last.pos + lastN.toNat + 1)),
           argv.drop (last.pos + lastN.toNat) ++ tail0)
    else if lastN = 0 then
      if lastArgsL > 0 then .error .excessArgs else .ok (pm2, tail0)
    else if lastN > (lastArgsL : Int) then .error .lessArgs
    else .ok (pm2, tail0)
  else
    match last.opts.nargs with
    | "+" => if lastArgsL = 0 then .error .lessArgs else .ok (pm2, tail0)
    | "?" => if lastArgsL > 1 then .error .excessArgs else .ok (pm2, tail0)
    | _ => .ok (pm2, tail0)

/-- The positional part of `Extract` (lines 299–317): pool the head and tail
tokens, require at least as many pooled tokens as declared arguments (the
source raises the generic `ErrLessArgs` here, not `ErrLessPosArgs`, which
`parser.go` never uses), then bind arguments and surplus indices. -/
def posStep (argv : List String) (args : List (String × Opt))
    (headArgv tailArgv : List String) (pm3 : PMap) : Except Err ExSt :=
  let allArgv := headArgv ++ tailArgv
  if allArgv.length < args.length then .error .lessArgs
  else
    match numAssign argv args.length allArgv.length (argAssign allArgv args 0 pm3) with
    | .error e => .error e
    | .ok pm5 => .ok ⟨pm5, headArgv, tailArgv, allArgv⟩

/-- `Extract` (lines 247–317).  `occs` is the position-sorted occurrence
slice; on an empty slice the source indexes `keywordsSlice[0]` and panics
(`panicIndex`).  Adjacent spans are accumulated by `spanLoop`, then the last
occurrence's entry is overwritten with the whole trailing span and
reconciled by `lastStep`, and `posStep` binds the positional pool. -/
def extract (argv : List String) (occs : List Kw) (args : List (String × Opt))
    (tail0 : List String) : Except Err ExSt :=
  match occs with
  | [] => .error .panicIndex
  | first :: rest =>
    let last := (first :: rest).getLastD dummyKw
    let headArgv := if first.pos ≠ 0 then goSlice argv 0 first.pos else []
    let pm1 := spanLoop argv (first :: rest) []
    let pm2 := updateAssoc pm1 last.name (argv.drop (last.pos + 1))
    match lastStep argv last pm2 tail0 with
    | .error e => .error e
    | .ok (pm3, tailArgv) => posStep argv args headArgv tailArgv pm3

/-- `checkEnum` (lines 339–356): every bound token must be a member. -/
def checkEnumV (o : Opt) (xs : List String) : Except Err Unit :=
  match o.enum with
  | none => .ok ()
  | some es => if xs.all es.contains then .ok () else .error .invalidChoice

/-- `checkAssert` (lines 322–337). -/
def checkAssertV (o : Opt) (xs : List String) : Except Err Unit :=
  match o.assert with
  | none => .ok ()
  | some f => if xs.all f then .ok () else .error .assertionFailure

/-- The `Map` transform (lines 403–407 / 420–424). -/
def applyMap (o : Opt) (xs : List String) : List String :=
  match o.map with
  | none => xs
  | some f => xs.map f

/-- The argument-section checks of `Validate` (lines 410–424). -/
def argChecks (ao : Opt) (xs : List String) : Except Err (List String) :=
  match checkEnumV ao xs with
  | .error e => .error e
  | .ok _ =>
    match checkAssertV ao xs with
    | .error e => .error e
    | .ok _ => .ok (applyMap ao xs)

/-- `Validate` (lines 319–426) over the `parsedMap` entries.  The entry
order parameter is the map's (modelled) iteration order.  The source skips
the entry of the last occurrence's switch (`continue`, line 359–361) and
uses `return` — not `continue` — both when an empty-accepting contract is
vacuously satisfied (line 378) and after an exact-count check (line 386),
so the remaining entries are left unvalidated in those runs. -/
def validate (kwMap argMap : List (String × Opt)) (lastName : String) :
    PMap → Except Err PMap
  | [] => .ok []
  | (name, args) :: rest =>
    if name = lastName then
      match validate kwMap argMap lastName rest with
      | .error e => .error e
      | .ok r => .ok ((name, args) :: r)
    else
      match lookupA kwMap name with
      | some o =>
        let gotten := args.length
        if (o.n = 0 ∨ o.nargs = "?" ∨ o.nargs = "*") ∧ gotten = 0 then
          .ok ((name, args) :: rest)
        else if o.n ≠ -1 then
          if o.n > (gotten : Int) then .error .lessArgs
          else if o.n < (gotten : Int) then .error .excessArgs
          else .ok ((name, args) :: rest)
        else if o.nargs = "+" ∧ gotten = 0 then .error .lessArgs
        else if o.nargs = "?" ∧ gotten > 1 then .error .excessArgs
        else
          match checkEnumV o args with
          | .error e => .error e
          | .ok _ =>
            match checkAssertV o args with
            | .error e => .error e
            | .ok _ =>
              let args1 := applyMap o args
              match lookupA argMap name with
              | none =>
                match validate kwMap argMap lastName rest with
                | .error e => .error e
                | .ok r => .ok ((name, args1) :: r)
              | some ao =>
                match argChecks ao args1 with
                | .error e => .error e
                | .ok args2 =>
                  match validate kwMap argMap lastName rest with
                  | .error e => .error e
                  | .ok r => .ok ((name, args2) :: r)
      | none =>
        match lookupA argMap name with
        | none =>
          match validate kwMap argMap lastName rest with
          | .error e => .error e
          | .ok r => .ok ((name, args) :: r)
        | some ao =>
          match argChecks ao args with
          | .error e => .error e
          | .ok args2 =>
            match validate kwMap argMap lastName rest with
            | .error e => .error e
            | .ok r => .ok ((name, args2) :: r)

/-- `Parse` (lines 428–435): `Find`, sort, `Extract`, `Validate`, returning
the final `parsedMap`. -/
def pParse (st : PState) : Except Err PMap :=
  match findAll st.exitOnHelp st.argv st.keywordsMap with
  | .error e => .error e
  | .ok occs =>
    let socc := sortKws occs
    match extract st.argv socc st.argumentsSlice st.tailArgv0 with
    | .error e => .error e
    | .ok ex => validate st.keywordsMap st.argumentsMap (socc.getLastD dummyKw).name ex.parsedMap

/-- Chain of `Keyword` registrations (user declarations after `New`). -/
def regChain (st : PState) : List (String × String × Opt) → Except Err PState
  | [] => .ok st
  | (s, l, o) :: rest =>
    match keywordReg st s l o with
    | .error e => .error e
    | .ok st1 => regChain st1 rest

/-- Modelled from the spec (§4.3 step 6 / §8 "duplicate detection"): the
concatenation, in ascending occurrence order, of the spans a switch named
`nm` owns — the tokens strictly between each of its occurrences and the
next occurrence.  Used only to compare the spec's wording against
`Extract`'s `parsedMap`. -/
def specSpanConcat (argv : List String) (nm : String) : List Kw → List String
  | c :: n :: rest =>
    (if c.name = nm then goSlice argv (c.pos + 1) n.pos else []) ++
      specSpanConcat argv nm (n :: rest)
  | _ => []

/-- Modelled from the spec (§3 invariant / §4.3 step 4): a bound-value count
satisfies a switch's arity contract — the exact count when `N ≠ -1`,
otherwise the declared quantifier's bound.  Used only to compare the spec's
wording against the extractor's behaviour. -/
def specArityOk (o : Opt) (len : Nat) : Prop :=
  if o.n ≠ -1 then (len : Int) = o.n
  else if o.nargs = "+" then 1 ≤ len
  else if o.nargs = "?" then len ≤ 1
  else True

instance (o : Opt) (len : Nat) : Decidable (specArityOk o len) := by
  unfold specArityOk
  infer_instance

end AP

namespace Erl

/-- Erlang runtime errors raised by `argparser.erl`: the `wrong_nargs`
error tuple of `wrong_nargs_error/3`, and `badmatch` for a failed pattern
match (e.g. `{_, N} = false`). -/
inductive EErr where
  | wrong_nargs (sw : String) (need given : Int)
  | badmatch
deriving DecidableEq, Repr

/-- `lists:keyfind(K, 1, L)` (`false` becomes `none`). -/
def keyfind (k : String) : List (String × α) → Option (String × α)
  | [] => none
  | (a, b) :: t => if a = k then some (a, b) else keyfind k t

/-- `lists:keyreplace(K, 1, L, New)`. -/
def keyreplace (k : String) (new : String × α) : List (String × α) → List (String × α)
  | [] => []
  | (a, b) :: t => if a = k then new :: t else (a, b) :: keyreplace k new t

/-- `lists:keystore(K, 1, L, New)`: replace the first pair with key `K`, or
append `New`. -/
def keystore (k : String) (l : List (String × α)) (new : String × α) : List (String × α) :=
  if (keyfind k l).isSome then keyreplace k new l else l ++ [new]

/-- `lists:seq(S, E)` for the in-range uses of the source. -/
def seq (s e : Nat) : List Nat :=
  if s ≤ e then List.range' s (e - s + 1) else []

/-- `lists:nth(I, L)`, 1-based (always called in range by the source). -/
def nth (i : Nat) (l : List String) : String :=
  l.getD (i - 1) ""

/-- `slice_list/3` (lines 39–46): 1-based inclusive slice.  The source's
recursive clause re-enters with `End` replaced by `length(X)` and that call
always takes the first branch, so the one-step recursion is inlined here. -/
def slice_list (x : List String) (s e : Nat) : List String :=
  if e ≤ x.length then (seq s e).map (fun i => nth i x)
  else (seq s x.length).map (fun i => nth i x)

/-- `lists:enumerate/1` (1-based). -/
def enumerate (l : List String) : List (Nat × String) :=
  (List.range l.length).map (fun i => (i + 1, l.getD i ""))

/-- `get_index/3` (lines 11–20). -/
def get_index_go (spec : List (String × α)) :
    List (Nat × String) → List (Nat × String) → List (Nat × String)
  | [], all => all.reverse
  | (i, h) :: t, all =>
    if (keyfind h spec).isSome then get_index_go spec t ((i, h) :: all)
    else get_index_go spec t all

/-- `get_index/2` (lines 22–23): 1-based positions of tokens that are
declared switches, in stream order. -/
def get_index (args : List String) (spec : List (String × α)) : List (Nat × String) :=
  get_index_go spec (enumerate args) []

/-- `store_switch/3` (lines 25–31): prepend a value to a switch's collected
(reversed) list. -/
def store_switch (sw v : String) (parsed : List (String × List String)) :
    List (String × List String) :=
  match keyfind sw parsed with
  | some (_, collected) => keyreplace sw (sw, v :: collected) parsed
  | none => keystore sw parsed (sw, [v])

/-- `store_switch_arg/3` (lines 33–37). -/
def store_switch_arg (sw : String) : List String → List (String × List String) →
    List (String × List String)
  | [], parsed => parsed
  | v :: rest, parsed => store_switch_arg sw rest (store_switch sw v parsed)

/-- `extract_args/3` (lines 48–56): each index's slice (which starts with the
switch token itself) is stored; at the final index the per-switch lists are
reversed and their head (the switch token) dropped.  The `[]` clause does not
exist in the source (a call with `[]` would be a `function_clause` error and
never happens for the inputs used). -/
def extract_args_go (args : List String) : List (Nat × String) →
    List (String × List String) → List (String × List String)
  | [(ind, sw)], parsed =>
    let remaining := slice_list args ind args.length
    (store_switch_arg sw remaining parsed).map (fun p => (p.1, p.2.reverse.tail))
  | (ind, sw) :: (nextInd, sw2) :: rest, parsed =>
    extract_args_go args ((nextInd, sw2) :: rest)
      (store_switch_arg sw (slice_list args ind (nextInd - 1)) parsed)
  | [], parsed => parsed

/-- `extract_args/2` (lines 58–59). -/
def extract_args (args : List String) (idx : List (Nat × String)) :
    List (String × List String) :=
  extract_args_go args idx []

/-- `get_attrib/3` (lines 61–67) specialised to integer attributes. -/
def get_attrib (sw attrib : String) (spec : List (String × List (String × Int))) :
    Option (String × Int) :=
  match keyfind sw spec with
  | some (_, attribs) => keyfind attrib attribs
  | none => none

/-- `check_nargs/2` (lines 79–91): every non-last switch's collected count
must equal its declared `n`, else `wrong_nargs`.  A missing attribute would
be an Erlang `badmatch`. -/
def check_nargs (spec : List (String × List (String × Int))) :
    List (String × List String) → Except EErr Unit
  | [] => .ok ()
  | (sw, saved) :: rest =>
    match get_attrib sw "n" spec with
    | some (_, n) =>
      if n ≠ (saved.length : Int) then .error (.wrong_nargs sw n saved.length)
      else check_nargs spec rest
    | none => .error .badmatch

/-- `extract_positional/2` (lines 93–112): check the non-last switches, then
reconcile the last switch's collected tokens against its `n`, returning the
corrected bindings and the reclaimed positional tokens. -/
def extract_positional (spec : List (String × List (String × Int)))
    (parsed : List (String × List String)) :
    Except EErr (List (String × List String) × List String) :=
  match parsed.getLast? with
  | none => .error .badmatch
  | some (sw, saved) =>
    let savedLen := saved.length
    let rest := parsed.dropLast
    match check_nargs spec rest with
    | .error e => .error e
    | .ok _ =>
      match get_attrib sw "n" spec with
      | none => .error .badmatch
      | some (_, n) =>
        if n = 0 ∧ savedLen = 0 then .ok ((sw, []) :: rest, saved)
        else if n = 0 ∧ savedLen > 0 then .error (.wrong_nargs sw 0 savedLen)
        else if n > (savedLen : Int) then .error (.wrong_nargs sw n savedLen)
        else .ok ((sw, slice_list saved 1 n.toNat) :: rest,
                  slice_list saved (n.toNat + 1) savedLen)

/-- The stream of `test/0` (line 116). -/
def testArgs : List String := ["-a", "1", "2", "-b", "d", "-c", "a", "-1"]

/-- The spec of `test/0` (line 117). -/
def testSpec : List (String × List (String × Int)) :=
  [("-a", [("n", 2)]), ("-b", [("n", 0)]), ("-c", [("n", 1)])]

/-- `test/0` (lines 115–119). -/
def testRun : Except EErr (List (String × List String) × List String) :=
  extract_positional testSpec (extract_args testArgs (get_index testArgs testSpec))

end Erl

namespace Part0

/-- The fields of the unnamed variant's `Switch` struct read by
`process_switches` (lines 392–455).  `Assert` there returns `(bool, string)`;
it is modelled as a boolean predicate.  The `Map` transform mutates values in
place and cannot fail, so it is not tracked here. -/
structure PSw where
  value : List String := []
  enum : Option (List String) := none
  assert : Option (String → Bool) := none
  requires_ : List String := []
  excludes : List String := []

/-- Go map read over the `switches` registry. -/
def lookupSw (sws : List (String × PSw)) (d : String) : Option PSw :=
  match sws with
  | [] => none
  | (a, b) :: t => if a = d then some b else lookupSw t d

/-- The per-value loop of `process_switches` (lines 425–453): when an enum is
declared a passing member `continue`s (skipping the assertion); otherwise the
assertion, if declared, must pass. -/
def checkValues (v : PSw) : List String → Except AP.Err Unit
  | [] => .ok ()
  | a :: rest =>
    match v.enum with
    | some es =>
      if es.contains a then checkValues v rest else .error .invalidChoice
    | none =>
      match v.assert with
      | some f => if f a then checkValues v rest else .error .assertionFailure
      | none => checkValues v rest

/-- The body of `process_switches` (lines 392–455) over the full registry:
for every REGISTERED switch — matched or not — any `excludes` entry that is a
registered switch name fails `UnallowedDeps`, and any `requires` entry that
is not a registered switch name fails `MissingDeps`; then the per-value
checks run.  Go iterates the `switches` map in unspecified order; the list
order models one realizable order. -/
def process_switches_go (all : List (String × PSw)) :
    List (String × PSw) → Except AP.Err Unit
  | [] => .ok ()
  | (_, v) :: rest =>
    match v.excludes.find? (fun d => (lookupSw all d).isSome) with
    | some _ => .error .unallowedDeps
    | none =>
      match v.requires_.find? (fun d => (lookupSw all d).isNone) with
      | some _ => .error .missingDeps
      | none =>
        match checkValues v v.value with
        | .error e => .error e
        | .ok _ => process_switches_go all rest

/-- `process_switches` applied to the registry. -/
def process_switches (sws : List (String × PSw)) : Except AP.Err Unit :=
  process_switches_go sws sws

end Part0

/-! ### Supporting lemmas about the embedded map and loop operations -/

namespace AP

theorem lookupA_updateAssoc_self (m : List (String × α)) (k : String) (v : α) :
    lookupA (updateAssoc m k v) k = some v := by
  induction m with
  | nil => simp [updateAssoc, lookupA]
  | cons p t ih =>
    obtain ⟨a, b⟩ := p
    by_cases h : a = k <;> simp [updateAssoc, lookupA, h, ih]

theorem lookupA_updateAssoc_ne (m : List (String × α)) (k k' : String) (v : α)
    (h : k ≠ k') : lookupA (updateAssoc m k v) k' = lookupA m k' := by
  induction m with
  | nil => simp [updateAssoc, lookupA, h]
  | cons p t ih =>
    obtain ⟨a, b⟩ := p
    by_cases ha : a = k
    · subst ha; simp [updateAssoc, lookupA, h]
    · simp [updateAssoc, lookupA, ha, ih]

theorem lookupD_updAppend_self (pm : PMap) (k : String) (xs : List String) :
    lookupD (updAppend pm k xs) k = lookupD pm k ++ xs := by
  simp [updAppend, lookupD, lookupA_updateAssoc_self]

theorem lookupD_updAppend_ne (pm : PMap) (k k' : String) (xs : List String) (h : k ≠ k') :
    lookupD (updAppend pm k xs) k' = lookupD pm k' := by
  simp [updAppend, lookupD, lookupA_updateAssoc_ne _ _ _ _ h]

/-- The span-accumulation loop realizes, for every name, the concatenation
of that name's spans in list order. -/
theorem spanLoop_lookupD (argv : List String) (nm : String) :
    ∀ (occs : List Kw) (pm : PMap),
      lookupD (spanLoop argv occs pm) nm = lookupD pm nm ++ specSpanConcat argv nm occs
  | [], pm => by simp [spanLoop, specSpanConcat]
  | [x], pm => by simp [spanLoop, specSpanConcat]
  | c :: n :: rest, pm => by
    rw [spanLoop, specSpanConcat, spanLoop_lookupD argv nm (n :: rest)]
    by_cases h : c.name = nm
    · rw [h, lookupD_updAppend_self, List.append_assoc]
      simp
    · rw [lookupD_updAppend_ne _ _ _ _ h]
      simp [h]

/-- The positional-binding loop leaves every key alone that is neither a
declared argument name nor one of the written indices. -/
theorem argAssign_lookupA (allArgv : List String) (nm : String) :
    ∀ (args : List (String × Opt)) (i : Nat) (pm : PMap),
      (∀ p ∈ args, nm ≠ p.1) →
      (∀ j, i ≤ j → j < i + args.length → nm ≠ toString j) →
      lookupA (argAssign allArgv args i pm) nm = lookupA pm nm
  | [], _, pm, _, _ => rfl
  | (a, o) :: rest, i, pm, h1, h2 => by
    rw [argAssign]
    rw [argAssign_lookupA allArgv nm rest (i + 1) _
      (fun p hp => h1 p (List.mem_cons_of_mem _ hp))
      (fun j hj1 hj2 => h2 j (by omega) (by simp only [List.length_cons]; omega))]
    rw [lookupA_updateAssoc_ne _ _ _ _
      (Ne.symm (h2 i le_rfl (by simp only [List.length_cons]; omega)))]
    rw [lookupA_updateAssoc_ne _ _ _ _ (Ne.symm (h1 (a, o) (List.mem_cons_self _ _)))]

/-- The surplus-index loop leaves every key alone that is not one of the
written indices. -/
theorem numAssignGo_lookupA (argv : List String) (nm : String) :
    ∀ (fuel i : Nat) (pm pm' : PMap),
      numAssignGo argv fuel i pm = .ok pm' →
      (∀ j, i ≤ j → j < i + fuel → nm ≠ toString j) →
      lookupA pm' nm = lookupA pm nm
  | 0, i, pm, pm', h, _ => by
    simp only [numAssignGo] at h
    cases h
    rfl
  | fuel + 1, i, pm, pm', h, h2 => by
    rw [numAssignGo] at h
    cases hv : argv[i]? with
    | none => rw [hv] at h; cases h
    | some v =>
      rw [hv] at h
      rw [numAssignGo_lookupA argv nm fuel (i + 1) _ pm' h
        (fun j hj1 hj2 => h2 j (by omega) (by omega))]
      rw [lookupA_updateAssoc_ne _ _ _ _ (Ne.symm (h2 i le_rfl (by omega)))]

theorem numAssign_lookupA (argv : List String) (nm : String) (i stop : Nat)
    (pm pm' : PMap) (h : numAssign argv i stop pm = .ok pm')
    (h2 : ∀ j, i ≤ j → j < stop → nm ≠ toString j) :
    lookupA pm' nm = lookupA pm nm :=
  numAssignGo_lookupA argv nm (stop - i) i pm pm' h
    (fun j hj1 hj2 => h2 j hj1 (by omega))

theorem posStep_ok_fields (argv : List String) (args : List (String × Opt))
    (head tl : List String) (pm3 : PMap) (st : ExSt)
    (h : posStep argv args head tl pm3 = .ok st) :
    st.headArgv = head ∧ st.tailArgv = tl ∧ st.allArgv = head ++ tl := by
  simp only [posStep] at h
  split at h
  · cases h
  · cases hna : numAssign argv args.length (head ++ tl).length (argAssign (head ++ tl) args 0 pm3) with
    | error e => rw [hna] at h; cases h
    | ok pm5 => rw [hna] at h; cases h; exact ⟨rfl, rfl, rfl⟩

/-- The positional stage leaves every key alone that is neither a declared
argument name nor a pool index. -/
theorem posStep_lookupA (argv : List String) (args : List (String × Opt))
    (head tl : List String) (pm3 : PMap) (st : ExSt) (nm : String)
    (h : posStep argv args head tl pm3 = .ok st)
    (hargs : ∀ p ∈ args, nm ≠ p.1)
    (hnum : ∀ i, i < (head ++ tl).length → nm ≠ toString i) :
    lookupA st.parsedMap nm = lookupA pm3 nm := by
  simp only [posStep] at h
  split at h
  · cases h
  · rename_i hlen
    rw [not_lt] at hlen
    cases hna : numAssign argv args.length (head ++ tl).length (argAssign (head ++ tl) args 0 pm3) with
    | error e => rw [hna] at h; cases h
    | ok pm5 =>
      rw [hna] at h
      cases h
      show lookupA pm5 nm = lookupA pm3 nm
      rw [numAssign_lookupA argv nm _ _ _ _ hna
        (fun j hj1 hj2 => hnum j (by omega))]
      exact argAssign_lookupA (head ++ tl) nm args 0 pm3 hargs
        (fun j hj1 hj2 => hnum j (by omega))

theorem lastStep_lookupA_ne (argv : List String) (last : Kw) (pm2 : PMap)
    (tail0 : List String) (pm3 : PMap) (tl : List String) (nm : String)
    (h : lastStep argv last pm2 tail0 = .ok (pm3, tl))
    (hne : last.name ≠ nm) :
    lookupA pm3 nm = lookupA pm2 nm := by
  simp only [lastStep] at h
  split at h
  · split at h
    · cases h
      exact lookupA_updateAssoc_ne _ _ _ _ hne
    · split at h
      · split at h
        · cases h
        · cases h; rfl
      · split at h
        · cases h
        · cases h; rfl
  · split at h
    · split at h
      · cases h
      · cases h; rfl
    · split at h
      · cases h
      · cases h; rfl
    · cases h; rfl

theorem lastStep_arity (argv : List String) (last : Kw) (pm2 : PMap)
    (tail0 : List String) (pm3 : PMap) (tl : List String)
    (hpm2 : lookupD pm2 last.name = argv.drop (last.pos + 1))
    (hN : last.opts.n = -1 ∨ 0 ≤ last.opts.n)
    (h : lastStep argv last pm2 tail0 = .ok (pm3, tl)) :
    specArityOk last.opts (lookupD pm3 last.name).length := by
  simp only [lastStep] at h
  split at h
  · rename_i hn1
    split at h
    · rename_i hgt
      cases h
      have hn0 : 0 ≤ last.opts.n := by
        rcases hN with hN | hN
        · exact absurd hN hn1
        · exact hN
      rw [specArityOk, if_pos hn1]
      rw [show lookupD (updateAssoc pm2 last.name
          (goSlice argv (last.pos + 1) (last.pos + last.opts.n.toNat + 1))) last.name
        = goSlice argv (last.pos + 1) (last.pos + last.opts.n.toNat + 1) by
          simp [lookupD, lookupA_updateAssoc_self]]
      rw [goSlice, List.length_take, List.length_drop]
      have hL : (last.opts.n.toNat : Int) < ((argv.drop (last.pos + 1)).length : Int) := by
        rw [Int.toNat_of_nonneg hn0]
        exact hgt
      rw [List.length_drop] at hL
      have : last.pos + last.opts.n.toNat + 1 - (last.pos + 1) = last.opts.n.toNat := by omega
      rw [this]
      have : min last.opts.n.toNat (argv.length - (last.pos + 1)) = last.opts.n.toNat := by omega
      rw [this, Int.toNat_of_nonneg hn0]
    · rename_i hngt
      split at h
      · rename_i hn0
        split at h
        · cases h
        · rename_i hL0
          cases h
          rw [specArityOk, if_pos hn1, hpm2, hn0]
          simp only [not_lt, Nat.le_zero] at hL0
          rw [hL0]
          rfl
      · split at h
        · cases h
        · rename_i hn0 hnlt
          cases h
          rw [specArityOk, if_pos hn1, hpm2]
          rw [not_lt] at hngt hnlt
          omega
  · rename_i hn1
    have hn1 : last.opts.n = -1 := by
      by_contra hc
      exact hn1 hc
    split at h
    · rename_i hplus
      split at h
      · cases h
      · rename_i hL0
        cases h
        rw [specArityOk, if_neg (by simp [hn1]), if_pos hplus, hpm2]
        omega
    · rename_i hq
      split at h
      · cases h
      · rename_i hL1
        cases h
        have hne1 : ¬(("?" : String) = "+") := by decide
        rw [specArityOk, if_neg (by simp [hn1]), hq, if_neg hne1, if_pos rfl, hpm2]
        omega
    · rename_i hnp hnq
      cases h
      rw [specArityOk, if_neg (by simp [hn1]), if_neg hnp, if_neg hnq]
      trivial


end AP

/-! ### Lemmas about `New` and the dependency sweep -/

namespace AP

/-- `New` always leaves exactly the implicit help switch registered. -/
theorem pNew_keywordsMap (argv : List String) :
    (pNew argv).keywordsMap = [("help", helpOpt)] := by
  unfold pNew
  cases hf : argv.findIdx? (· == "--") <;>
    simp [hf, keywordReg, resolveOpt, nargsValid, updateAssoc, lookupA, helpOpt]

/-- `New` registers no positional arguments. -/
theorem pNew_argumentsMap (argv : List String) :
    (pNew argv).argumentsMap = [] := by
  unfold pNew
  cases hf : argv.findIdx? (· == "--") <;>
    simp [hf, keywordReg, resolveOpt, nargsValid, updateAssoc, lookupA]

/-- The duplicate check of `Find` (lines 222–231) for a non-required switch
(for a required one the misplaced required check of lines 218–220 can fire
`NoArgs` first): once one occurrence has been seen (`seen`), or with two
matches still ahead, the scan of a switch without allow-duplicates ends in
`Duplicate`. -/
theorem findGo_dup (o : Opt) (hreq : o.required = false)
    (hdup : o.allowDuplicates = false) :
    ∀ (argv : List String) (i : Nat) (seen : Bool),
      (if seen then 1 else 2) ≤ argv.countP (kwTokMatch o) →
      findGo false o argv i seen = .error .duplicate
  | [], i, seen, hcount => by
    cases seen <;> simp [List.countP_nil] at hcount
  | v :: rest, i, seen, hcount => by
    rw [List.countP_cons] at hcount
    by_cases hm : kwTokMatch o v
    · cases seen with
      | true => simp [findGo, hm, hreq, hdup]
      | false =>
        simp only [findGo, hm, hreq, hdup, Bool.and_false, Bool.false_and,
          Bool.false_eq_true, if_false, Bool.not_true, if_true, Bool.and_true,
          Bool.not_false, if_pos]
        have h2 : 1 ≤ List.countP (kwTokMatch o) rest := by
          have hc := hcount
          rw [if_pos hm, if_neg (show ¬(false = true) by simp)] at hc
          omega
        rw [findGo_dup o hreq hdup rest (i + 1) true h2]
    · simp only [findGo, hm, hreq, Bool.and_false, Bool.false_and,
        Bool.false_eq_true, if_false, Bool.not_false, Bool.and_true]
      exact findGo_dup o hreq hdup rest (i + 1) seen
        (by simp [hm] at hcount; simpa using hcount)

end AP

namespace Part0

/-- With no enum and no assertion, the per-value loop cannot fail. -/
theorem checkValues_clean (v : PSw) (hv : v.enum = none ∧ v.assert = none) :
    ∀ xs, checkValues v xs = .ok ()
  | [] => rfl
  | a :: rest => by
    rw [checkValues, hv.1, hv.2, checkValues_clean v hv rest]

/-- Success characterization of the dependency sweep: every listed exclusion
must be unregistered and every listed requirement registered — matchedness
is never consulted. -/
theorem process_switches_go_ok_iff (all : List (String × PSw)) :
    ∀ (l : List (String × PSw)),
      (∀ p ∈ l, p.2.enum = none ∧ p.2.assert = none) →
      (process_switches_go all l = .ok () ↔
        ∀ p ∈ l, (∀ d ∈ p.2.excludes, lookupSw all d = none) ∧
                 (∀ d ∈ p.2.requires_, (lookupSw all d).isSome))
  | [], _ => by simp [process_switches_go]
  | (nm, v) :: rest, hclean => by
    rw [process_switches_go]
    cases hex : v.excludes.find? (fun d => (lookupSw all d).isSome) with
    | some d =>
      simp only []
      constructor
      · intro h; cases h
      · intro h
        exfalso
        have hd := List.find?_some hex
        have hmem := List.mem_of_find?_eq_some hex
        have hnone := (h (nm, v) (List.mem_cons_self _ _)).1 d hmem
        rw [hnone] at hd
        cases hd
    | none =>
      cases hreq : v.requires_.find? (fun d => (lookupSw all d).isNone) with
      | some d =>
        simp only []
        constructor
        · intro h; cases h
        · intro h
          exfalso
          have hd := List.find?_some hreq
          have hmem := List.mem_of_find?_eq_some hreq
          have hsome := (h (nm, v) (List.mem_cons_self _ _)).2 d hmem
          rw [Option.isNone_iff_eq_none] at hd
          rw [hd] at hsome
          cases hsome
      | none =>
        rw [checkValues_clean v (hclean (nm, v) (List.mem_cons_self _ _))]
        rw [process_switches_go_ok_iff all rest
          (fun p hp => hclean p (List.mem_cons_of_mem _ hp))]
        constructor
        · intro h
          intro p hp
          rcases List.mem_cons.mp hp with hp1 | hp2
          · subst hp1
            refine ⟨?_, ?_⟩
            · intro d hd
              have hthis := List.find?_eq_none.mp hex d hd
              simpa using hthis
            · intro d hd
              have hthis := List.find?_eq_none.mp hreq d hd
              cases hcase : lookupSw all d with
              | none => exact absurd (by simp [hcase]) hthis
              | some w => simp
          · exact h p hp2
        · intro h p hp
          exact h p (List.mem_cons_of_mem _ hp)

end Part0

/-! ### Claim theorems -/

open AP

/-- C1 (code bug exhibit): declaring switch `-a` with exact arity 1 and
extracting from the stream `["-a","1","2"]`, the scanner yields the single
occurrence of `a` at position 0, the claimed span is `["1"]`, but the
reclaimed tail is computed from offset `pos+N` instead of `pos+N+1` and is
`["1","2"]` — so the token `"1"` sits both in the switch's bound values and
in the positional pool, and head ++ switch token ++ span ++ tail does not
reconstruct the stream (it duplicates `"1"`). -/
theorem c1_span_duplication :
    ((findGo false { name := "a", shortName := "a", n := 1 } ["-a", "1", "2"] 0 false).map
        (fun ks => ks.map (fun k => (k.name, k.pos)))) = .ok [("a", 0)] ∧
    extract ["-a", "1", "2"] [⟨"a", 0, { name := "a", shortName := "a", n := 1 }⟩] [] []
      = .ok ⟨[("a", ["1"]), ("0", ["-a"]), ("1", ["1"])], [], ["1", "2"], ["1", "2"]⟩ ∧
    ([] : List String) ++ (["-a"] ++ ["1"]) ++ ["1", "2"] ≠ ["-a", "1", "2"] :=
  ⟨by decide, by decide, by decide⟩

/-- C2 (code bug exhibit): with the last switch `-b` declared at exact arity
0 and the stream `["-b","x"]`, the parse succeeds — the `ExcessArgs` branch
for `N == 0` is shadowed by the `lastArgsL > lastN` branch, which claims
zero tokens and pushes `argv[last.pos+0:]` (starting at the switch token
`"-b"` itself) into the positional pool. -/
theorem c2_zero_arity_excess_not_raised :
    (match regChain (pNew ["-b", "x"]) [("b", "", { n := 0 })] with
      | .ok st => pParse st
      | .error e => .error e) = .ok [("b", []), ("0", ["-b"]), ("1", ["x"])] := by
  decide

/-- C3 (counterexample): the Erlang scenario of `test/0` does NOT succeed
with the bindings claimed by the spec — it does not return any `ok` result,
let alone `{-a: ["1","2"], -b: [], -c: ["a"]}` with positional `["-1"]`. -/
theorem c3_scenario_counterexample :
    Erl.testRun ≠ .ok ([("-a", ["1", "2"]), ("-b", []), ("-c", ["a"])], ["-1"]) := by
  decide

/-- C3 (amended): running `test/0` raises `wrong_nargs` for `-b`: the span
assigned to `-b` is `["d"]` (the token between `-b` and `-c`), which
violates `-b`'s exact arity 0, so `check_nargs` errors with required 0,
given 1. -/
theorem c3_scenario_amended :
    Erl.testRun = .error (.wrong_nargs "-b" 0 1) := by
  decide

/-- C4 (code bug exhibit): with one declared positional `x`, switch `-b` of
exact arity 0 and stream `["-b"]`, the positional pool is empty and smaller
than the declaration count, and the parse fails with the generic
`ErrLessArgs` — not `ErrLessPosArgs`, which `parser.go` declares but never
raises. -/
theorem c4_pool_shortfall_generic_error :
    (match regChain (pNew ["-b"]) [("b", "", { n := 0 })] with
      | .ok st =>
        (match argumentReg st "x" {} with
          | .ok st2 => pParse st2
          | .error e => .error e)
      | .error e => .error e) = .error .lessArgs ∧
    Err.lessArgs ≠ Err.lessPosArgs :=
  ⟨by decide, by decide⟩

/-- C5 (counterexample): switch `-a` with allow-duplicates and quantifier
`*` over the stream `["-a","1","-a","2"]` matches at positions 0 and 2; the
parse succeeds but binds `a` to `["2"]` only — `Extract` overwrites the
accumulated spans with `argv[last.pos+1:]` for the switch owning the last
occurrence, so the first span `["1"]` is discarded instead of concatenated. -/
theorem c5_duplicate_last_counterexample :
    (match regChain (pNew ["-a", "1", "-a", "2"])
        [("a", "", { allowDuplicates := true, nargs := "*" })] with
      | .ok st => pParse st
      | .error e => .error e) = .ok [("a", ["2"])] ∧
    ["2"] ≠ ["1", "2"] :=
  ⟨by decide, by decide⟩

/-- For every stream, occurrence list and switch name `nm` that does NOT
own the last occurrence (and is not clobbered by a declared positional name
or a pool index), a successful extraction binds `nm` to the concatenation
of all of `nm`'s per-occurrence spans in occurrence order. -/
theorem extract_spanConcat_of_not_last (argv : List String) (occs : List Kw)
    (args : List (String × Opt)) (tail0 : List String) (nm : String) (st : ExSt)
    (hne : occs ≠ [])
    (hnlast : nm ≠ (occs.getLastD dummyKw).name)
    (hnarg : ∀ p ∈ args, nm ≠ p.1)
    (hnnum : ∀ i, i < st.allArgv.length → nm ≠ toString i)
    (h : extract argv occs args tail0 = .ok st) :
    lookupD st.parsedMap nm = specSpanConcat argv nm occs := by
  cases occs with
  | nil => exact absurd rfl hne
  | cons f r =>
    simp only [extract] at h
    cases hls : lastStep argv ((f :: r).getLastD dummyKw)
        (updateAssoc (spanLoop argv (f :: r) [])
          ((f :: r).getLastD dummyKw).name
          (argv.drop (((f :: r).getLastD dummyKw).pos + 1))) tail0 with
    | error e => rw [hls] at h; cases h
    | ok p =>
      obtain ⟨pm3, tl⟩ := p
      rw [hls] at h
      have hfields := posStep_ok_fields _ _ _ _ _ _ h
      have hall : st.allArgv = (if f.pos ≠ 0 then goSlice argv 0 f.pos else []) ++ tl :=
        hfields.2.2
      have h1 : lookupA st.parsedMap nm = lookupA pm3 nm := by
        refine posStep_lookupA _ _ _ _ _ _ _ h hnarg ?_
        intro i hi
        exact hnnum i (by rw [hall]; exact hi)
      have h2 : lookupA pm3 nm =
          lookupA (updateAssoc (spanLoop argv (f :: r) [])
            ((f :: r).getLastD dummyKw).name
            (argv.drop (((f :: r).getLastD dummyKw).pos + 1))) nm :=
        lastStep_lookupA_ne _ _ _ _ _ _ _ hls (Ne.symm hnlast)
      have h3 : lookupD st.parsedMap nm = lookupD (spanLoop argv (f :: r) []) nm := by
        rw [lookupD, h1, h2, lookupA_updateAssoc_ne _ _ _ _ (Ne.symm hnlast), lookupD]
      rw [h3, spanLoop_lookupD]
      simp [lookupD, lookupA]

/-- C5 (amended): both halves of the duplicate-handling contract as the
code realizes them.  First, a switch whose required flag is unset and whose
alias matches at least two stream positions fails `Duplicate` when
allow-duplicates is unset (for a required switch the misplaced per-token
required check can raise `NoArgs` first — the C6 bug).  Second, with
allow-duplicates, a switch's bound values equal the concatenation of all of
its per-occurrence spans in stream order PROVIDED it does not own the last
occurrence; when it owns the last occurrence only the final span survives
(the counterexample). -/
theorem c5_duplicates_amended :
    (∀ (o : Opt) (argv : List String),
        o.required = false → o.allowDuplicates = false →
        2 ≤ argv.countP (kwTokMatch o) →
        findGo false o argv 0 false = .error .duplicate) ∧
    (∀ (argv : List String) (occs : List Kw) (args : List (String × Opt))
        (tail0 : List String) (nm : String) (st : ExSt),
        occs ≠ [] →
        nm ≠ (occs.getLastD dummyKw).name →
        (∀ p ∈ args, nm ≠ p.1) →
        (∀ i, i < st.allArgv.length → nm ≠ toString i) →
        extract argv occs args tail0 = .ok st →
        lookupD st.parsedMap nm = specSpanConcat argv nm occs) :=
  ⟨fun o argv hreq hdup hc => findGo_dup o hreq hdup argv 0 false hc,
   extract_spanConcat_of_not_last⟩

/-- C5 (witness): concrete instances of both halves of the amended theorem
— switch `a` matched at positions 0 and 2 of `["-a","x","-a"]` without
allow-duplicates fails `Duplicate`; and with two distinct switches `a`
(exact arity 1) and `b` (quantifier `*`, last), extraction binds `a` to
exactly its single span `["1"]`. -/
theorem c5_duplicates_amended_witness :
    findGo false { name := "a", shortName := "a" } ["-a", "x", "-a"] 0 false
      = .error .duplicate ∧
    lookupD [("a", ["1"]), ("b", ["2", "3"])] "a"
      = specSpanConcat ["-a", "1", "-b", "2", "3"] "a"
          [⟨"a", 0, { name := "a", shortName := "a", n := 1 }⟩,
           ⟨"b", 2, { name := "b", shortName := "b", nargs := "*", n := -1 }⟩] :=
  ⟨c5_duplicates_amended.1 { name := "a", shortName := "a" } ["-a", "x", "-a"]
      rfl rfl (by decide),
   c5_duplicates_amended.2 ["-a", "1", "-b", "2", "3"]
     [⟨"a", 0, { name := "a", shortName := "a", n := 1 }⟩,
      ⟨"b", 2, { name := "b", shortName := "b", nargs := "*", n := -1 }⟩]
     [] [] "a" ⟨[("a", ["1"]), ("b", ["2", "3"])], [], [], []⟩
     (by simp) (by decide) (by simp)
     (fun i hi => absurd hi (by simp)) (by decide)⟩

/-- C6 (code bug exhibit): switch `-a` declared required over the stream
`["x","-a"]` — the switch occurs once (at position 1), yet the parse fails
with `NoArgs`, because `Find` runs the required check inside the per-token
loop and panics at the first token that is not the switch.  Conversely, on
the empty stream a required switch has zero occurrences, yet no `NoArgs`
is raised (the parse instead dies indexing the empty occurrence slice). -/
theorem c6_required_scan_bug :
    (match regChain (pNew ["x", "-a"]) [("a", "", { required := true })] with
      | .ok st => pParse st
      | .error e => .error e) = .error .noArgs ∧
    (match regChain (pNew []) [("a", "", { required := true })] with
      | .ok st => pParse st
      | .error e => .error e) = .error .panicIndex :=
  ⟨by decide, by decide⟩

/-- C7 (counterexample): switches `-b` (exact arity 0), `-a` (exact arity
2), `-c` (quantifier `*`) over the stream `["-b","-a","1","-c"]`: the parse
succeeds binding `a` to `["1"]`, one token, although `a`'s exact arity is 2
— `Validate` hits `b` first, takes the vacuous-empty `return`, and never
re-checks `a`; `c`, the last switch, is skipped by name. -/
theorem c7_validator_skip_counterexample :
    (match regChain (pNew ["-b", "-a", "1", "-c"])
        [("b", "", { n := 0 }), ("a", "", { n := 2 }), ("c", "", { nargs := "*" })] with
      | .ok st => pParse st
      | .error e => .error e) = .ok [("b", []), ("a", ["1"]), ("c", [])] ∧
    ¬ specArityOk { name := "a", shortName := "a", n := 2 } 1 :=
  ⟨by decide, by decide⟩

/-- C7 (amended): the arity of the switch owning the LAST occurrence is
enforced — by the extractor, not the validator (which skips it): every
successful extraction leaves that switch's bound-value count satisfying its
arity contract.  Non-last switches are only checked by the validator, which
can return early (see the counterexample). -/
theorem c7_last_arity_amended (argv : List String) (occs : List Kw)
    (args : List (String × Opt)) (tail0 : List String) (st : ExSt)
    (hne : occs ≠ [])
    (hN : (occs.getLastD dummyKw).opts.n = -1 ∨ 0 ≤ (occs.getLastD dummyKw).opts.n)
    (hnarg : ∀ p ∈ args, (occs.getLastD dummyKw).name ≠ p.1)
    (hnnum : ∀ i, i < st.allArgv.length → (occs.getLastD dummyKw).name ≠ toString i)
    (h : extract argv occs args tail0 = .ok st) :
    specArityOk (occs.getLastD dummyKw).opts
      (lookupD st.parsedMap (occs.getLastD dummyKw).name).length := by
  cases occs with
  | nil => exact absurd rfl hne
  | cons f r =>
    simp only [extract] at h
    cases hls : lastStep argv ((f :: r).getLastD dummyKw)
        (updateAssoc (spanLoop argv (f :: r) [])
          ((f :: r).getLastD dummyKw).name
          (argv.drop (((f :: r).getLastD dummyKw).pos + 1))) tail0 with
    | error e => rw [hls] at h; cases h
    | ok p =>
      obtain ⟨pm3, tl⟩ := p
      rw [hls] at h
      have hfields := posStep_ok_fields _ _ _ _ _ _ h
      have h1 : lookupA st.parsedMap ((f :: r).getLastD dummyKw).name
          = lookupA pm3 ((f :: r).getLastD dummyKw).name := by
        refine posStep_lookupA _ _ _ _ _ _ _ h hnarg ?_
        intro i hi
        exact hnnum i (by rw [hfields.2.2]; exact hi)
      have h2 : lookupD st.parsedMap ((f :: r).getLastD dummyKw).name
          = lookupD pm3 ((f :: r).getLastD dummyKw).name := by
        rw [lookupD, h1, lookupD]
      rw [h2]
      refine lastStep_arity _ _ _ _ _ _ ?_ hN hls
      simp [lookupD, lookupA_updateAssoc_self]

/-- C7 (witness): concrete instance of the amended theorem — the single
occurrence of `a` (exact arity 1) over `["-a","1"]` extracts successfully
and its bound count 1 satisfies the contract. -/
theorem c7_last_arity_amended_witness :
    specArityOk ({ name := "a", shortName := "a", n := 1 } : Opt)
      (lookupD [("a", ["1"])] "a").length :=
  c7_last_arity_amended ["-a", "1"]
    [⟨"a", 0, { name := "a", shortName := "a", n := 1 }⟩]
    [] [] ⟨[("a", ["1"])], [], [], []⟩
    (by simp) (Or.inr (by decide)) (by simp)
    (fun i hi => absurd hi (by simp)) (by decide)

/-- C8 (counterexample): in `parser.go`, switch `-a` declaring
`excludes = ["b"]` and switch `-b` are BOTH matched in `["-a","-b"]`, yet
the parse succeeds — `Validate` contains no dependency check at all, so no
`UnallowedDeps` (nor `MissingDeps`) can ever be raised by that pipeline. -/
theorem c8_deps_unenforced_counterexample :
    (match regChain (pNew ["-a", "-b"])
        [("a", "", { excludes := ["b"], n := 0 }), ("b", "", { n := 0 })] with
      | .ok st => pParse st
      | .error e => .error e) = .ok [("a", []), ("b", [])] := by
  decide

/-- C8 (amended): the only dependency check in the repository
(`process_switches` of the unnamed variant) runs over every REGISTERED
switch — matched or not — and consults registration, not matchedness: with
no enum/assert hooks it succeeds exactly when no switch's `excludes` entry
is a registered switch name and every `requires` entry is one. -/
theorem c8_registration_deps_amended (sws : List (String × Part0.PSw))
    (hclean : ∀ p ∈ sws, p.2.enum = none ∧ p.2.assert = none) :
    Part0.process_switches sws = .ok () ↔
      ∀ p ∈ sws, (∀ d ∈ p.2.excludes, Part0.lookupSw sws d = none) ∧
                 (∀ d ∈ p.2.requires_, (Part0.lookupSw sws d).isSome) :=
  Part0.process_switches_go_ok_iff sws sws hclean

/-- C8 (witness): concrete instance — a registry with one switch requiring
itself passes the dependency sweep. -/
theorem c8_registration_deps_amended_witness :
    Part0.process_switches [("a", { requires_ := ["a"] })] = .ok () :=
  (c8_registration_deps_amended [("a", { requires_ := ["a"] })]
      (by
        intro p hp
        rcases List.mem_cons.mp hp with h | h
        · subst h; exact ⟨rfl, rfl⟩
        · cases h)).mpr
    (by
      intro p hp
      rcases List.mem_cons.mp hp with h | h
      · subst h
        constructor
        · intro d hd
          cases hd
        · intro d hd
          rcases List.mem_cons.mp hd with h2 | h2
          · subst h2; rfl
          · cases h2
      · cases h)

/-- C9 (code bug exhibit): with zero user-declared switches and zero
declared positionals, parsing the empty stream does not succeed — `Extract`
indexes `keywordsSlice[0]` on the empty occurrence slice, an
index-out-of-range panic — instead of the trivially empty bindings the spec
requires. -/
theorem c9_empty_parse_panic :
    pParse (pNew []) = .error .panicIndex := by
  decide

/-- C10: the constructor's state already holds the `help` switch with short
alias `h` and long alias `help`; any later keyword declaration whose
resolved name is `help`, and any positional declaration named `help`, fails
with `NameConflict`; and the help switch's scan step binds an occurrence on
a token exactly when that token is `-h` or `--help` — so every parse scans
for those tokens. -/
theorem c10_implicit_help (argv : List String) :
    lookupA (pNew argv).keywordsMap "help" = some helpOpt ∧
    helpOpt.shortName = "h" ∧ helpOpt.longName = "help" ∧
    (∀ short long o, (short ≠ "" ∨ long ≠ "") → resolveName short long o = "help" →
        keywordReg (pNew argv) short long o = .error .nameConflict) ∧
    (∀ o, argumentReg (pNew argv) "help" o = .error .nameConflict) ∧
    (∀ v, findGo false helpOpt [v] 0 false = .ok [⟨"help", 0, helpOpt⟩] ↔
        (v = "-h" ∨ v = "--help")) := by
  refine ⟨?_, rfl, rfl, ?_, ?_, ?_⟩
  · rw [pNew_keywordsMap]
    simp [lookupA]
  · intro short long o hname hres
    simp only [keywordReg, pNew_keywordsMap, pNew_argumentsMap]
    rw [if_neg (by tauto)]
    rw [resolveName] at hres
    simp [hres, lookupA]
  · intro o
    simp only [argumentReg, pNew_keywordsMap, pNew_argumentsMap]
    simp [lookupA]
  · intro v
    constructor
    · intro hfind
      by_cases h1 : v = "-h"
      · exact Or.inl h1
      · by_cases h2 : v = "--help"
        · exact Or.inr h2
        · exfalso
          simp only [findGo, helpOpt] at hfind
          have h1' : ¬("-h" : String) = v := fun he => h1 he.symm
          have h2' : ¬("--help" : String) = v := fun he => h2 he.symm
          simp [kwTokMatch, shortHitB, longHitB, h1', h2'] at hfind
    · rintro (h | h) <;> subst h <;> rfl

/-- C10 (witness): concrete instance — declaring a keyword whose long name
is `help` after construction fails with `NameConflict`. -/
theorem c10_implicit_help_witness :
    keywordReg (pNew ["x"]) "q" "help" {} = .error .nameConflict :=
  (c10_implicit_help ["x"]).2.2.2.1 "q" "help" {} (Or.inr (by decide)) (by decide)
